import Mathlib

/-!
Verification development for the pico_iox16 firmware core.

This file gives a shallow embedding, in Lean, of the parts of the
pico_iox16 sources that the specification's testable properties talk
about:

* the protocol codec (`src/pico_iox16_protocol/src/lib.rs`):
  CRC-16/KERMIT, frame serialization (`Message::new_raw`), the frame
  hunter (`next_message`) and the slave/master decoders
  (`slave_next`, `master_next`);
* the non-volatile store (`src/pico_iox16_firmware/src/nvm.rs`):
  the persisted page layout, its decoding as performed by `Nvm::new`,
  the documented defaults (`default_nonvolatile_data`) and the cache
  semantics of `Nvm::set`;
* the input engine (`src/pico_iox16_firmware/src/input.rs`):
  the per-input accumulator (`InputData::update`), the read-and-reset
  handlers, and the threshold debounce state machine
  (`ThresholdData::update`);
* the output handler (`src/pico_iox16_firmware/src/output.rs`):
  frequency clamping and duty-cycle rescaling of `OutputSet`.

Bytes are modelled as natural numbers below 256, u16/u32/u64 values as
natural numbers with explicit `% 2^w` where the source wraps, and i16/i32
values as integers; Rust's truncating `/` and `%` on signed integers are
`Int.tdiv` and `Int.tmod`.
-/

set_option maxRecDepth 4000

namespace PicoIox16

/-! ## Byte-level helpers -/

/-- Two's-complement interpretation of a 16-bit little-endian pair of bytes,
as performed by `zerocopy` when viewing flash bytes as an `i16` field. -/
def toI16 (n : Nat) : Int :=
  if n % 65536 < 32768 then (n % 65536 : Int) else (n % 65536 : Int) - 65536

/-- Truncation of an `i32` value to `i16` (Rust `as i16`). -/
def wrapI16 (z : Int) : Int :=
  (z + 32768) % 65536 - 32768

/-- Truncation of an integer to `i32` (Rust wrapping into `i32`). -/
def wrapI32 (z : Int) : Int :=
  (z + 2147483648) % 4294967296 - 2147483648

/-- Little-endian `u16` read at offset `off` of a byte list. -/
def readU16 (bs : List Nat) (off : Nat) : Nat :=
  bs[off]! + 256 * bs[off + 1]!

/-- Little-endian `u32` read at offset `off` of a byte list. -/
def readU32 (bs : List Nat) (off : Nat) : Nat :=
  bs[off]! + 256 * bs[off + 1]! + 65536 * bs[off + 2]! + 16777216 * bs[off + 3]!

/-- The two little-endian bytes of a 16-bit value. -/
def bytesU16 (n : Nat) : List Nat :=
  [n % 256, n / 256 % 256]

/-! ## CRC-16/KERMIT

The `crc` crate's `CRC_16_KERMIT`: polynomial `0x1021`, reflected input and
output, initial value `0x0000`, no final xor.  In the reflected realisation
each input byte is xor-ed into the low bits of the running value, which is
then shifted right eight times against the reflected polynomial `0x8408`.
-/

/-- One bit step of the reflected CRC-16/KERMIT computation. -/
def crcBit (c : Nat) : Nat :=
  if c % 2 = 1 then (c / 2) ^^^ 0x8408 else c / 2

/-- One byte step of the reflected CRC-16/KERMIT computation. -/
def crcByte (c b : Nat) : Nat :=
  crcBit (crcBit (crcBit (crcBit (crcBit (crcBit (crcBit (crcBit (c ^^^ b % 256))))))))

/-- CRC-16/KERMIT of a byte list (`CHECKSUM.checksum` in the protocol crate). -/
def crc16 (bs : List Nat) : Nat :=
  bs.foldl crcByte 0

theorem crcBit_lt (c : Nat) (h : c < 65536) : crcBit c < 65536 := by
  unfold crcBit
  have h2 : c / 2 < 65536 := lt_of_le_of_lt (Nat.div_le_self _ _) h
  split
  · have : (0x8408 : Nat) < 2 ^ 16 := by norm_num
    have hc : c / 2 < 2 ^ 16 := by simpa using h2
    simpa using Nat.xor_lt_two_pow hc this
  · exact h2

theorem crcByte_lt (c b : Nat) (h : c < 65536) : crcByte c b < 65536 := by
  unfold crcByte
  have hb : b % 256 < 2 ^ 16 := lt_of_lt_of_le (Nat.mod_lt _ (by norm_num)) (by norm_num)
  have hx : c ^^^ b % 256 < 65536 := by
    have hc : c < 2 ^ 16 := by simpa using h
    simpa using Nat.xor_lt_two_pow hc hb
  exact crcBit_lt _ (crcBit_lt _ (crcBit_lt _ (crcBit_lt _ (crcBit_lt _ (crcBit_lt _
    (crcBit_lt _ (crcBit_lt _ hx)))))))

theorem crc16_aux_lt (bs : List Nat) (c : Nat) (h : c < 65536) :
    bs.foldl crcByte c < 65536 := by
  induction bs generalizing c with
  | nil => simpa using h
  | cons b bs ih => exact ih _ (crcByte_lt c b h)

theorem crc16_lt (bs : List Nat) : crc16 bs < 65536 :=
  crc16_aux_lt bs 0 (by norm_num)

/-! ## Frame format (`src/pico_iox16_protocol/src/lib.rs`)

A frame is `magic "OM"; length : u8; !length : u8; address : u16 LE;
command : u16 LE; payload : 4*length bytes; checksum : u16 LE` where the
checksum is CRC-16/KERMIT over header plus payload.
-/

/-- The parsed message header (`Header` in the protocol crate). -/
structure Header where
  magic0 : Nat
  magic1 : Nat
  length : Nat
  lengthInverted : Nat
  address : Nat
  command : Nat
  deriving Repr, DecidableEq

/-- `Message::new_raw` followed by `as_bytes`: serialize a frame with the
given address, command and payload bytes.  The payload length must be a
multiple of 4 of at most 1020 bytes for the result to be a valid frame. -/
def serializeFrame (address command : Nat) (payload : List Nat) : List Nat :=
  let L := payload.length / 4
  let body := 0x4F :: 0x4D :: L :: (L ^^^ 0xFF) :: (address % 256) :: (address / 256 % 256) ::
    (command % 256) :: (command / 256 % 256) :: payload
  body ++ bytesU16 (crc16 body)

/-- The frame hunter `next_message`, with an explicit fuel argument (the
Rust loop consumes at least one byte per iteration, so fuel equal to the
buffer length suffices).  Returns the parsed header and payload bytes of
the first CRC-valid frame, if any, together with the number of bytes
processed. -/
def nextMessageAux : Nat → List Nat → Option (Header × List Nat) × Nat
  | 0, _ => (none, 0)
  | fuel + 1, bs =>
    match bs with
    | b0 :: b1 :: b2 :: b3 :: rest =>
      if b0 = 0x4F ∧ b1 = 0x4D ∧ b2 = b3 ^^^ 0xFF then
        -- valid header marker found
        match rest with
        | b4 :: b5 :: b6 :: b7 :: rest2 =>
          -- `bytes.len() < length` with `length = b2 * 4 + 10` and
          -- `bytes.len() = rest2.length + 8`
          if rest2.length < b2 * 4 + 2 then (none, 0)
          else
            let body := b0 :: b1 :: b2 :: b3 :: b4 :: b5 :: b6 :: b7 :: rest2.take (b2 * 4)
            let footer := rest2.drop (b2 * 4)
            if crc16 body = footer[0]! + 256 * footer[1]! then
              (some (⟨b0, b1, b2, b3, b4 + 256 * b5, b6 + 256 * b7⟩,
                rest2.take (b2 * 4)), b2 * 4 + 10)
            else
              -- invalid checksum: skip the whole claimed frame and keep searching
              let r := nextMessageAux fuel (rest2.drop (b2 * 4 + 2))
              (r.1, r.2 + (b2 * 4 + 10))
        | _ =>
          -- fewer than 8 bytes: `Header::try_ref_from_prefix` fails, stop
          (none, 0)
      else
        let r := nextMessageAux fuel (b1 :: b2 :: b3 :: rest)
        (r.1, r.2 + 1)
    | _ =>
      -- fewer than 4 bytes left: the hunt loop exits
      (none, 0)

/-- `next_message` from the protocol crate. -/
def nextMessage (bs : List Nat) : Option (Header × List Nat) × Nat :=
  nextMessageAux bs.length bs

/-- With fewer than four bytes the hunter returns nothing, for any fuel. -/
theorem nextMessageAux_short (fuel : Nat) (bs : List Nat) (h : bs.length < 4) :
    nextMessageAux fuel bs = (none, 0) := by
  cases fuel with
  | zero => rfl
  | succ fuel =>
    rcases bs with _ | ⟨b0, _ | ⟨b1, _ | ⟨b2, _ | ⟨b3, rest⟩⟩⟩⟩
    · rfl
    · rfl
    · rfl
    · rfl
    · exact absurd h (by simp)

/-- The hunter's result does not depend on the fuel, as long as the fuel
is at least the buffer length (each loop iteration consumes at least one
byte). -/
theorem nextMessageAux_fuel_irrel (n : Nat) :
    ∀ (bs : List Nat), bs.length ≤ n → ∀ f1 f2 : Nat,
      bs.length ≤ f1 → bs.length ≤ f2 → nextMessageAux f1 bs = nextMessageAux f2 bs := by
  induction n with
  | zero =>
    intro bs hn f1 f2 _ _
    rw [nextMessageAux_short f1 bs (by omega), nextMessageAux_short f2 bs (by omega)]
  | succ n ih =>
    intro bs hn f1 f2 h1 h2
    by_cases hshort : bs.length < 4
    · rw [nextMessageAux_short f1 bs hshort, nextMessageAux_short f2 bs hshort]
    rcases bs with _ | ⟨b0, _ | ⟨b1, _ | ⟨b2, _ | ⟨b3, rest⟩⟩⟩⟩
    · exact absurd (by simp) hshort
    · exact absurd (by simp) hshort
    · exact absurd (by simp) hshort
    · exact absurd (by simp) hshort
    simp only [List.length_cons] at hn h1 h2
    rcases f1 with _ | f1
    · omega
    rcases f2 with _ | f2
    · omega
    rcases rest with _ | ⟨b4, _ | ⟨b5, _ | ⟨b6, _ | ⟨b7, rest2⟩⟩⟩⟩ <;>
      (try simp only [List.length_cons, List.length_nil] at hn h1 h2) <;>
      by_cases hmagic : b0 = 79 ∧ b1 = 77 ∧ b2 = b3 ^^^ 255
    · simp [nextMessageAux, hmagic]
    · simp only [nextMessageAux, if_neg hmagic]
      rw [ih [b1, b2, b3] (by simp; omega) f1 f2 (by simp; omega) (by simp; omega)]
    · simp [nextMessageAux, hmagic]
    · simp only [nextMessageAux, if_neg hmagic]
      rw [ih [b1, b2, b3, b4] (by simp; omega) f1 f2 (by simp; omega) (by simp; omega)]
    · simp [nextMessageAux, hmagic]
    · simp only [nextMessageAux, if_neg hmagic]
      rw [ih [b1, b2, b3, b4, b5] (by simp; omega) f1 f2 (by simp; omega) (by simp; omega)]
    · simp [nextMessageAux, hmagic]
    · simp only [nextMessageAux, if_neg hmagic]
      rw [ih [b1, b2, b3, b4, b5, b6] (by simp; omega) f1 f2 (by simp; omega) (by simp; omega)]
    · simp only [nextMessageAux, if_pos hmagic]
      by_cases hrlen : rest2.length < b2 * 4 + 2
      · rw [if_pos hrlen, if_pos hrlen]
      · rw [if_neg hrlen, if_neg hrlen]
        by_cases hcrc : crc16 (b0 :: b1 :: b2 :: b3 :: b4 :: b5 :: b6 :: b7 ::
            List.take (b2 * 4) rest2) =
            (List.drop (b2 * 4) rest2)[0]! + 256 * (List.drop (b2 * 4) rest2)[1]!
        · rw [if_pos hcrc, if_pos hcrc]
        · rw [if_neg hcrc, if_neg hcrc]
          rw [ih (rest2.drop (b2 * 4 + 2)) (by rw [List.length_drop]; omega) f1 f2
              (by rw [List.length_drop]; omega) (by rw [List.length_drop]; omega)]
    · simp only [nextMessageAux, if_neg hmagic]
      rw [ih (b1 :: b2 :: b3 :: b4 :: b5 :: b6 :: b7 :: rest2)
          (by simp only [List.length_cons]; omega) f1 f2
          (by simp only [List.length_cons]; omega) (by simp only [List.length_cons]; omega)]

/-- Any sufficient fuel computes `next_message`. -/
theorem nextMessageAux_fuel_ge (fuel : Nat) (bs : List Nat) (h : bs.length ≤ fuel) :
    nextMessageAux fuel bs = nextMessage bs :=
  nextMessageAux_fuel_irrel bs.length bs le_rfl fuel bs.length h le_rfl

/-- One unfolding of the hunter on a buffer with at least eight bytes. -/
theorem nextMessageAux_cons8 (fuel b0 b1 b2 b3 b4 b5 b6 b7 : Nat) (rest2 : List Nat) :
    nextMessageAux (fuel + 1) (b0 :: b1 :: b2 :: b3 :: b4 :: b5 :: b6 :: b7 :: rest2) =
      if b0 = 0x4F ∧ b1 = 0x4D ∧ b2 = b3 ^^^ 0xFF then
        if rest2.length < b2 * 4 + 2 then (none, 0)
        else if crc16 (b0 :: b1 :: b2 :: b3 :: b4 :: b5 :: b6 :: b7 ::
            rest2.take (b2 * 4)) =
            (rest2.drop (b2 * 4))[0]! + 256 * (rest2.drop (b2 * 4))[1]! then
          (some (⟨b0, b1, b2, b3, b4 + 256 * b5, b6 + 256 * b7⟩,
            rest2.take (b2 * 4)), b2 * 4 + 10)
        else
          ((nextMessageAux fuel (rest2.drop (b2 * 4 + 2))).1,
            (nextMessageAux fuel (rest2.drop (b2 * 4 + 2))).2 + (b2 * 4 + 10))
      else
        ((nextMessageAux fuel (b1 :: b2 :: b3 :: b4 :: b5 :: b6 :: b7 :: rest2)).1,
          (nextMessageAux fuel (b1 :: b2 :: b3 :: b4 :: b5 :: b6 :: b7 :: rest2)).2 + 1) := by
  simp only [nextMessageAux]

/-- A matched header at the start of a buffer with fewer than eight bytes
makes the hunter stop with nothing processed. -/
theorem nextMessageAux_cons4_incomplete (fuel b0 b1 b2 b3 : Nat) (rest : List Nat)
    (h : rest.length < 4) :
    nextMessageAux (fuel + 1) (b0 :: b1 :: b2 :: b3 :: rest) =
      if b0 = 0x4F ∧ b1 = 0x4D ∧ b2 = b3 ^^^ 0xFF then (none, 0)
      else
        ((nextMessageAux fuel (b1 :: b2 :: b3 :: rest)).1,
          (nextMessageAux fuel (b1 :: b2 :: b3 :: rest)).2 + 1) := by
  rcases rest with _ | ⟨b4, _ | ⟨b5, _ | ⟨b6, _ | ⟨b7, rest2⟩⟩⟩⟩
  · simp only [nextMessageAux]
  · simp only [nextMessageAux]
  · simp only [nextMessageAux]
  · simp only [nextMessageAux]
  · exact absurd h (by simp)

/-- One full step of the frame hunter on a buffer with at least eight
bytes, phrased in terms of `nextMessage` itself. -/
theorem nextMessage_cons8 (b0 b1 b2 b3 b4 b5 b6 b7 : Nat) (rest2 : List Nat) :
    nextMessage (b0 :: b1 :: b2 :: b3 :: b4 :: b5 :: b6 :: b7 :: rest2) =
      if b0 = 0x4F ∧ b1 = 0x4D ∧ b2 = b3 ^^^ 0xFF then
        if rest2.length < b2 * 4 + 2 then (none, 0)
        else if crc16 (b0 :: b1 :: b2 :: b3 :: b4 :: b5 :: b6 :: b7 ::
            rest2.take (b2 * 4)) =
            (rest2.drop (b2 * 4))[0]! + 256 * (rest2.drop (b2 * 4))[1]! then
          (some (⟨b0, b1, b2, b3, b4 + 256 * b5, b6 + 256 * b7⟩,
            rest2.take (b2 * 4)), b2 * 4 + 10)
        else
          ((nextMessage (rest2.drop (b2 * 4 + 2))).1,
            (nextMessage (rest2.drop (b2 * 4 + 2))).2 + (b2 * 4 + 10))
      else
        ((nextMessage (b1 :: b2 :: b3 :: b4 :: b5 :: b6 :: b7 :: rest2)).1,
          (nextMessage (b1 :: b2 :: b3 :: b4 :: b5 :: b6 :: b7 :: rest2)).2 + 1) := by
  have hlen : (b0 :: b1 :: b2 :: b3 :: b4 :: b5 :: b6 :: b7 :: rest2).length =
      (rest2.length + 7) + 1 := by simp only [List.length_cons]
  rw [nextMessage, hlen, nextMessageAux_cons8,
    nextMessageAux_fuel_ge (rest2.length + 7) (rest2.drop (b2 * 4 + 2))
      (by rw [List.length_drop]; omega),
    nextMessageAux_fuel_ge (rest2.length + 7)
      (b1 :: b2 :: b3 :: b4 :: b5 :: b6 :: b7 :: rest2)
      (by simp only [List.length_cons]; omega)]

/-- A serialized frame parses back to its own header and payload, with
the full frame length processed. -/
theorem nextMessage_serializeFrame (a c L : Nat) (p : List Nat)
    (hp : p.length = 4 * L) (_hL : L ≤ 255) (ha : a < 65536) (hc : c < 65536) :
    nextMessage (serializeFrame a c p) =
      (some (⟨0x4F, 0x4D, L, L ^^^ 0xFF, a, c⟩, p), p.length + 10) := by
  have hL4 : p.length / 4 = L := by omega
  have hxor : (L ^^^ 255) ^^^ 255 = L := Nat.xor_cancel_right 255 L
  unfold serializeFrame bytesU16
  simp only [hL4, List.cons_append]
  rw [nextMessage_cons8]
  rw [if_pos ⟨rfl, rfl, hxor.symm⟩]
  have htail : p.length + 2 < L * 4 + 2 ↔ False := by
    simp only [iff_false]; omega
  rw [show (p ++ [crc16 (79 :: 77 :: L :: (L ^^^ 255) :: a % 256 :: a / 256 % 256 ::
      c % 256 :: c / 256 % 256 :: p) % 256,
      crc16 (79 :: 77 :: L :: (L ^^^ 255) :: a % 256 :: a / 256 % 256 ::
      c % 256 :: c / 256 % 256 :: p) / 256 % 256]).length = p.length + 2 by
    rw [List.length_append, List.length_cons, List.length_cons, List.length_nil]]
  rw [if_neg (by omega)]
  rw [show L * 4 = p.length by omega, List.take_left, List.drop_left]
  set body := 79 :: 77 :: L :: (L ^^^ 255) :: a % 256 :: a / 256 % 256 ::
    c % 256 :: c / 256 % 256 :: p with hbody
  have hcrclt : crc16 body < 65536 := crc16_lt body
  rw [if_pos (by
    simp only [List.getElem!_cons_zero, List.getElem!_cons_succ]
    omega)]
  have haddr : a % 256 + 256 * (a / 256 % 256) = a := by omega
  have hcmd2 : c % 256 + 256 * (c / 256 % 256) = c := by omega
  rw [haddr, hcmd2]

/-! ## Command decode (`slave_next`, `master_next`)

The typed request and response structs of the protocol crate are plain
`zerocopy` byte views: every bit pattern of the right size is valid, so a
struct is in bijection with its byte serialization.  Accordingly the
constructors below carry the raw payload bytes exactly where the Rust
enums carry a typed payload reference, and nothing where the Rust variant
carries a unit struct.
-/

/-- The `Command` enum. -/
inductive Command where
  | check | infoGet | configSet | configGet | outputSet | outputGet
  | inputGet | inputGetFull | inputSetCalibrations | inputGetCalibrations
  | inputSetThresholds | inputGetThresholds | inputGetThresholdTimes
  | inputGetThresholdStates | reboot
  deriving Repr, DecidableEq

/-- The numeric command id (`u16::from(command)`). -/
def Command.toNat : Command → Nat
  | .check => 0
  | .infoGet => 1
  | .configSet => 2
  | .configGet => 3
  | .outputSet => 4
  | .outputGet => 5
  | .inputGet => 6
  | .inputGetFull => 7
  | .inputSetCalibrations => 8
  | .inputGetCalibrations => 9
  | .inputSetThresholds => 10
  | .inputGetThresholds => 11
  | .inputGetThresholdTimes => 12
  | .inputGetThresholdStates => 13
  | .reboot => 14

/-- `Command::try_from` on a `u16` command id. -/
def Command.fromId : Nat → Option Command
  | 0 => some .check
  | 1 => some .infoGet
  | 2 => some .configSet
  | 3 => some .configGet
  | 4 => some .outputSet
  | 5 => some .outputGet
  | 6 => some .inputGet
  | 7 => some .inputGetFull
  | 8 => some .inputSetCalibrations
  | 9 => some .inputGetCalibrations
  | 10 => some .inputSetThresholds
  | 11 => some .inputGetThresholds
  | 12 => some .inputGetThresholdTimes
  | 13 => some .inputGetThresholdStates
  | 14 => some .reboot
  | _ => none

/-- The byte size of the request payload struct for each command
(`size_of` of `CheckReq`, `ConfigSetReq`, `OutputSetReq`, ...). -/
def Command.reqSize : Command → Nat
  | .configSet => 8
  | .outputSet => 48
  | .inputSetCalibrations => 160
  | .inputSetThresholds => 160
  | _ => 0

/-- The `Request` enum; data-carrying variants hold the payload bytes of
the typed request struct. -/
inductive Request where
  | check | infoGet | configGet
  | configSet (bytes : List Nat)
  | outputSet (bytes : List Nat)
  | outputGet | inputGet | inputGetFull
  | inputSetCalibrations (bytes : List Nat)
  | inputGetCalibrations
  | inputSetThresholds (bytes : List Nat)
  | inputGetThresholds | inputGetThresholdTimes | inputGetThresholdStates | reboot
  deriving Repr, DecidableEq

/-- `slave_next`: extract the next frame, filter by address, decode the
request by command id; data-carrying requests additionally require the
payload size to match the request struct. -/
def slaveNext (buffer : List Nat) (address : Nat) : Option Request × Nat :=
  match nextMessage buffer with
  | (none, processed) => (none, processed)
  | (some (header, payload), processed) =>
    if address ≠ header.address then (none, processed)
    else
      match Command.fromId header.command with
      | none => (none, processed)
      | some .check => (some .check, processed)
      | some .infoGet => (some .infoGet, processed)
      | some .configGet => (some .configGet, processed)
      | some .configSet =>
        if payload.length = 8 then (some (.configSet payload), processed)
        else (none, processed)
      | some .outputGet => (some .outputGet, processed)
      | some .outputSet =>
        if payload.length = 48 then (some (.outputSet payload), processed)
        else (none, processed)
      | some .inputGet => (some .inputGet, processed)
      | some .inputGetFull => (some .inputGetFull, processed)
      | some .inputSetCalibrations =>
        if payload.length = 160 then (some (.inputSetCalibrations payload), processed)
        else (none, processed)
      | some .inputGetCalibrations => (some .inputGetCalibrations, processed)
      | some .inputSetThresholds =>
        if payload.length = 160 then (some (.inputSetThresholds payload), processed)
        else (none, processed)
      | some .inputGetThresholds => (some .inputGetThresholds, processed)
      | some .inputGetThresholdTimes => (some .inputGetThresholdTimes, processed)
      | some .inputGetThresholdStates => (some .inputGetThresholdStates, processed)
      | some .reboot => (some .reboot, processed)

/-- The `Response` enum; data-carrying variants hold the payload bytes of
the typed response struct. -/
inductive Response where
  | check
  | infoGet (bytes : List Nat)
  | configGet (bytes : List Nat)
  | configSet
  | outputGet (bytes : List Nat)
  | outputSet
  | inputGet (bytes : List Nat)
  | inputGetFull (bytes : List Nat)
  | inputSetCalibrations
  | inputGetCalibrations (bytes : List Nat)
  | inputSetThresholds
  | inputGetThresholds (bytes : List Nat)
  | inputGetThresholdTimes (bytes : List Nat)
  | inputGetThresholdStates (bytes : List Nat)
  | reboot
  deriving Repr, DecidableEq

/-- `master_next`: extract the next frame and decode the response by
command id, recording the responding address; no address filter. -/
def masterNext (buffer : List Nat) : Option (Nat × Response) × Nat :=
  match nextMessage buffer with
  | (none, processed) => (none, processed)
  | (some (header, payload), processed) =>
    match Command.fromId header.command with
    | none => (none, processed)
    | some .check => (some (header.address, .check), processed)
    | some .infoGet =>
      if payload.length = 40 then (some (header.address, .infoGet payload), processed)
      else (none, processed)
    | some .configGet =>
      if payload.length = 8 then (some (header.address, .configGet payload), processed)
      else (none, processed)
    | some .configSet => (some (header.address, .configSet), processed)
    | some .outputGet =>
      if payload.length = 48 then (some (header.address, .outputGet payload), processed)
      else (none, processed)
    | some .outputSet => (some (header.address, .outputSet), processed)
    | some .inputGet =>
      if payload.length = 32 then (some (header.address, .inputGet payload), processed)
      else (none, processed)
    | some .inputGetFull =>
      if payload.length = 288 then (some (header.address, .inputGetFull payload), processed)
      else (none, processed)
    | some .inputSetCalibrations => (some (header.address, .inputSetCalibrations), processed)
    | some .inputGetCalibrations =>
      if payload.length = 160 then
        (some (header.address, .inputGetCalibrations payload), processed)
      else (none, processed)
    | some .inputSetThresholds => (some (header.address, .inputSetThresholds), processed)
    | some .inputGetThresholds =>
      if payload.length = 160 then
        (some (header.address, .inputGetThresholds payload), processed)
      else (none, processed)
    | some .inputGetThresholdTimes =>
      if payload.length = 264 then
        (some (header.address, .inputGetThresholdTimes payload), processed)
      else (none, processed)
    | some .inputGetThresholdStates =>
      if payload.length = 4 then
        (some (header.address, .inputGetThresholdStates payload), processed)
      else (none, processed)
    | some .reboot => (some (header.address, .reboot), processed)

/-- The typed request recovered by `slave_next` for a command and its
correctly sized payload bytes. -/
def requestOf (c : Command) (payload : List Nat) : Request :=
  match c with
  | .check => .check
  | .infoGet => .infoGet
  | .configGet => .configGet
  | .configSet => .configSet payload
  | .outputSet => .outputSet payload
  | .outputGet => .outputGet
  | .inputGet => .inputGet
  | .inputGetFull => .inputGetFull
  | .inputSetCalibrations => .inputSetCalibrations payload
  | .inputGetCalibrations => .inputGetCalibrations
  | .inputSetThresholds => .inputSetThresholds payload
  | .inputGetThresholds => .inputGetThresholds
  | .inputGetThresholdTimes => .inputGetThresholdTimes
  | .inputGetThresholdStates => .inputGetThresholdStates
  | .reboot => .reboot

/-- `slave_next` on a serialized request frame with the matching address
recovers the typed request (carrying the payload bytes where the request
struct has data) and processes the whole frame. -/
theorem slaveNext_serializeFrame (a : Nat) (c : Command) (p : List Nat)
    (hsize : p.length = c.reqSize) (ha : a < 65536) :
    slaveNext (serializeFrame a c.toNat p) a = (some (requestOf c p), p.length + 10) := by
  cases c
  case check =>
    have hnm := nextMessage_serializeFrame a (Command.check.toNat) 0 p
      (by rw [hsize]; rfl) (by norm_num) ha (by decide)
    simp only [slaveNext, hnm]
    rw [if_neg (by simp)]
    simp only [Command.toNat, Command.fromId]
    rfl
  case infoGet =>
    have hnm := nextMessage_serializeFrame a (Command.infoGet.toNat) 0 p
      (by rw [hsize]; rfl) (by norm_num) ha (by decide)
    simp only [slaveNext, hnm]
    rw [if_neg (by simp)]
    simp only [Command.toNat, Command.fromId]
    rfl
  case configSet =>
    have hnm := nextMessage_serializeFrame a (Command.configSet.toNat) 2 p
      (by rw [hsize]; rfl) (by norm_num) ha (by decide)
    simp only [slaveNext, hnm]
    rw [if_neg (by simp)]
    simp only [Command.toNat, Command.fromId]
    rw [if_pos (by rw [hsize]; rfl)]
    rfl
  case configGet =>
    have hnm := nextMessage_serializeFrame a (Command.configGet.toNat) 0 p
      (by rw [hsize]; rfl) (by norm_num) ha (by decide)
    simp only [slaveNext, hnm]
    rw [if_neg (by simp)]
    simp only [Command.toNat, Command.fromId]
    rfl
  case outputSet =>
    have hnm := nextMessage_serializeFrame a (Command.outputSet.toNat) 12 p
      (by rw [hsize]; rfl) (by norm_num) ha (by decide)
    simp only [slaveNext, hnm]
    rw [if_neg (by simp)]
    simp only [Command.toNat, Command.fromId]
    rw [if_pos (by rw [hsize]; rfl)]
    rfl
  case outputGet =>
    have hnm := nextMessage_serializeFrame a (Command.outputGet.toNat) 0 p
      (by rw [hsize]; rfl) (by norm_num) ha (by decide)
    simp only [slaveNext, hnm]
    rw [if_neg (by simp)]
    simp only [Command.toNat, Command.fromId]
    rfl
  case inputGet =>
    have hnm := nextMessage_serializeFrame a (Command.inputGet.toNat) 0 p
      (by rw [hsize]; rfl) (by norm_num) ha (by decide)
    simp only [slaveNext, hnm]
    rw [if_neg (by simp)]
    simp only [Command.toNat, Command.fromId]
    rfl
  case inputGetFull =>
    have hnm := nextMessage_serializeFrame a (Command.inputGetFull.toNat) 0 p
      (by rw [hsize]; rfl) (by norm_num) ha (by decide)
    simp only [slaveNext, hnm]
    rw [if_neg (by simp)]
    simp only [Command.toNat, Command.fromId]
    rfl
  case inputSetCalibrations =>
    have hnm := nextMessage_serializeFrame a (Command.inputSetCalibrations.toNat) 40 p
      (by rw [hsize]; rfl) (by norm_num) ha (by decide)
    simp only [slaveNext, hnm]
    rw [if_neg (by simp)]
    simp only [Command.toNat, Command.fromId]
    rw [if_pos (by rw [hsize]; rfl)]
    rfl
  case inputGetCalibrations =>
    have hnm := nextMessage_serializeFrame a (Command.inputGetCalibrations.toNat) 0 p
      (by rw [hsize]; rfl) (by norm_num) ha (by decide)
    simp only [slaveNext, hnm]
    rw [if_neg (by simp)]
    simp only [Command.toNat, Command.fromId]
    rfl
  case inputSetThresholds =>
    have hnm := nextMessage_serializeFrame a (Command.inputSetThresholds.toNat) 40 p
      (by rw [hsize]; rfl) (by norm_num) ha (by decide)
    simp only [slaveNext, hnm]
    rw [if_neg (by simp)]
    simp only [Command.toNat, Command.fromId]
    rw [if_pos (by rw [hsize]; rfl)]
    rfl
  case inputGetThresholds =>
    have hnm := nextMessage_serializeFrame a (Command.inputGetThresholds.toNat) 0 p
      (by rw [hsize]; rfl) (by norm_num) ha (by decide)
    simp only [slaveNext, hnm]
    rw [if_neg (by simp)]
    simp only [Command.toNat, Command.fromId]
    rfl
  case inputGetThresholdTimes =>
    have hnm := nextMessage_serializeFrame a (Command.inputGetThresholdTimes.toNat) 0 p
      (by rw [hsize]; rfl) (by norm_num) ha (by decide)
    simp only [slaveNext, hnm]
    rw [if_neg (by simp)]
    simp only [Command.toNat, Command.fromId]
    rfl
  case inputGetThresholdStates =>
    have hnm := nextMessage_serializeFrame a (Command.inputGetThresholdStates.toNat) 0 p
      (by rw [hsize]; rfl) (by norm_num) ha (by decide)
    simp only [slaveNext, hnm]
    rw [if_neg (by simp)]
    simp only [Command.toNat, Command.fromId]
    rfl
  case reboot =>
    have hnm := nextMessage_serializeFrame a (Command.reboot.toNat) 0 p
      (by rw [hsize]; rfl) (by norm_num) ha (by decide)
    simp only [slaveNext, hnm]
    rw [if_neg (by simp)]
    simp only [Command.toNat, Command.fromId]
    rfl

/-- The hunter's processed count never exceeds the buffer length, for any
fuel. -/
theorem nextMessageAux_processed_le (fuel : Nat) :
    ∀ bs : List Nat, (nextMessageAux fuel bs).2 ≤ bs.length := by
  induction fuel with
  | zero => intro bs; simp [nextMessageAux]
  | succ fuel ih =>
    intro bs
    rcases bs with _ | ⟨b0, _ | ⟨b1, _ | ⟨b2, _ | ⟨b3, rest⟩⟩⟩⟩
    · simp [nextMessageAux]
    · simp [nextMessageAux]
    · simp [nextMessageAux]
    · simp [nextMessageAux]
    rcases rest with _ | ⟨b4, _ | ⟨b5, _ | ⟨b6, _ | ⟨b7, rest2⟩⟩⟩⟩
    · by_cases hmagic : b0 = 79 ∧ b1 = 77 ∧ b2 = b3 ^^^ 255
      · simp [nextMessageAux, hmagic]
      · simp only [nextMessageAux]
        rw [if_neg hmagic]
        have h := ih (b1 :: b2 :: b3 :: ([] : List Nat))
        simp only [List.length_cons] at h ⊢
        omega
    · by_cases hmagic : b0 = 79 ∧ b1 = 77 ∧ b2 = b3 ^^^ 255
      · simp [nextMessageAux, hmagic]
      · simp only [nextMessageAux]
        rw [if_neg hmagic]
        have h := ih (b1 :: b2 :: b3 :: [b4])
        simp only [List.length_cons] at h ⊢
        omega
    · by_cases hmagic : b0 = 79 ∧ b1 = 77 ∧ b2 = b3 ^^^ 255
      · simp [nextMessageAux, hmagic]
      · simp only [nextMessageAux]
        rw [if_neg hmagic]
        have h := ih (b1 :: b2 :: b3 :: [b4, b5])
        simp only [List.length_cons] at h ⊢
        omega
    · by_cases hmagic : b0 = 79 ∧ b1 = 77 ∧ b2 = b3 ^^^ 255
      · simp [nextMessageAux, hmagic]
      · simp only [nextMessageAux]
        rw [if_neg hmagic]
        have h := ih (b1 :: b2 :: b3 :: [b4, b5, b6])
        simp only [List.length_cons] at h ⊢
        omega
    by_cases hmagic : b0 = 79 ∧ b1 = 77 ∧ b2 = b3 ^^^ 255
    · simp only [nextMessageAux]
      rw [if_pos hmagic]
      by_cases hlen : rest2.length < b2 * 4 + 2
      · rw [if_pos hlen]; simp
      · rw [if_neg hlen]
        by_cases hcrc : crc16 (b0 :: b1 :: b2 :: b3 :: b4 :: b5 :: b6 :: b7 ::
            List.take (b2 * 4) rest2) =
            (List.drop (b2 * 4) rest2)[0]! + 256 * (List.drop (b2 * 4) rest2)[1]!
        · rw [if_pos hcrc]
          simp only [List.length_cons]
          omega
        · rw [if_neg hcrc]
          have h := ih (rest2.drop (b2 * 4 + 2))
          rw [List.length_drop] at h
          simp only [List.length_cons]
          omega
    · simp only [nextMessageAux]
      rw [if_neg hmagic]
      have h := ih (b1 :: b2 :: b3 :: b4 :: b5 :: b6 :: b7 :: rest2)
      simp only [List.length_cons] at h ⊢
      omega

/-! ## Non-volatile store (`src/pico_iox16_firmware/src/nvm.rs`)

The persisted 4096-byte page is viewed through `zerocopy` as
`NonvolatileData { config: Config, calibrations: [Calibration; 16],
thresholds: [Threshold; 16] }`, `repr(C)` little-endian:

* `Config { address: u16, _padding: [u8; 2] }` — bytes 0..4;
* `Calibration { multiply, divide, add, min, max: i16 }` — 10 bytes each,
  at offsets `4 + 10*i`;
* `Threshold { threshold_high: i16, threshold_low: i16,
  debounce_time_us: u32, debounce_count: u16, _padding: [u8; 2] }` —
  12 bytes each, at offsets `164 + 12*i`.

`Nvm::new` decodes the raw flash bytes directly
(`NonvolatileData::try_ref_from_prefix`); every bit pattern is a valid
value of these field types, so decoding is the plain little-endian read
below, with no masking of any kind.
-/

/-- `nvm::Config` (the persisted device configuration). -/
structure Config where
  address : Nat
  deriving Repr, DecidableEq

/-- `nvm::Calibration` (per-input calibration, persisted). -/
structure Calibration where
  multiply : Int
  divide : Int
  add : Int
  min : Int
  max : Int
  deriving Repr, DecidableEq

/-- `nvm::Threshold` (per-input threshold configuration, persisted). -/
structure Threshold where
  threshold_high : Int
  threshold_low : Int
  debounce_time_us : Nat
  debounce_count : Nat
  deriving Repr, DecidableEq

/-- `nvm::NonvolatileData` (the typed view of the persisted page). -/
structure NonvolatileData where
  config : Config
  calibrations : List Calibration
  thresholds : List Threshold
  deriving Repr, DecidableEq

/-- Decode one `Calibration` at byte offset `off`. -/
def decodeCalibration (bs : List Nat) (off : Nat) : Calibration where
  multiply := toI16 (readU16 bs off)
  divide := toI16 (readU16 bs (off + 2))
  add := toI16 (readU16 bs (off + 4))
  min := toI16 (readU16 bs (off + 6))
  max := toI16 (readU16 bs (off + 8))

/-- Decode one `Threshold` at byte offset `off`. -/
def decodeThreshold (bs : List Nat) (off : Nat) : Threshold where
  threshold_high := toI16 (readU16 bs off)
  threshold_low := toI16 (readU16 bs (off + 2))
  debounce_time_us := readU32 bs (off + 4)
  debounce_count := readU16 bs (off + 8)

/-- The decode performed by `Nvm::new` on the 4096 bytes read from flash:
a plain little-endian reinterpretation of the page prefix as
`NonvolatileData`. -/
def decodeNonvolatileData (bs : List Nat) : NonvolatileData where
  config := ⟨readU16 bs 0⟩
  calibrations := (List.range 16).map fun i => decodeCalibration bs (4 + 10 * i)
  thresholds := (List.range 16).map fun i => decodeThreshold bs (164 + 12 * i)

/-- The typed default values written by `default_nonvolatile_data`, which
are also the defaults the field doc comments in `nvm.rs` promise for a
field-erased (all-ones) page. -/
def defaultNonvolatileData : NonvolatileData where
  config := ⟨0xFFFF⟩
  calibrations := List.replicate 16 ⟨1, 1, 0, -32768, 32767⟩
  thresholds := List.replicate 16 ⟨32767, -32768, 0, 0⟩

/-- The state of the `Nvm` store: the in-memory cached copy (the `Cell`)
and the typed value most recently committed to flash. -/
structure NvmState where
  cache : NonvolatileData
  flash : NonvolatileData
  deriving Repr, DecidableEq

/-- `Nvm::get`: return the in-memory cached copy. -/
def nvmGet (st : NvmState) : NonvolatileData :=
  st.cache

/-- The first, synchronous phase of `Nvm::set`: `self.0.set(*data)`
updates the in-memory cache, before the flash write is even started. -/
def nvmSetCachePhase (st : NvmState) (data : NonvolatileData) : NvmState :=
  { st with cache := data }

/-- The second phase of `Nvm::set`: the flash write.  Its outcome is
supplied by the board's `NonvolatileStorage::write`; on success the page
holds the new data, and an error is propagated by `?` to the caller. -/
def nvmSetFlashPhase (st : NvmState) (data : NonvolatileData)
    (writeResult : Except ε Unit) : NvmState × Except ε Unit :=
  match writeResult with
  | .ok _ => ({ st with flash := data }, .ok ())
  | .error e => (st, .error e)

/-- `Nvm::set`: cache update first, then the flash write, whose error (if
any) is returned to the calling handler. -/
def nvmSet (st : NvmState) (data : NonvolatileData)
    (writeResult : Except ε Unit) : NvmState × Except ε Unit :=
  nvmSetFlashPhase (nvmSetCachePhase st data) data writeResult

/-! ## Input engine (`src/pico_iox16_firmware/src/input.rs`) -/

/-- `InputData`: the per-input accumulator.  `previous_value`, `min`,
`max` are `i16`, `sum` is `i32`, `sum_squares` is `u64`, `count` is
`u16`. -/
structure InputData where
  previous_value : Int
  sum : Int
  sum_squares : Nat
  min : Int
  max : Int
  count : Nat
  deriving Repr, DecidableEq

/-- `InputData::new`: the reset state. -/
def InputData.new : InputData where
  previous_value := 0
  sum := 0
  sum_squares := 0
  min := 32767
  max := -32768
  count := 0

/-- `InputData::update`: fold one calibrated sample into the accumulator.
All machine arithmetic is written out with its wrapping behaviour
(`i32` additions wrap, `u64` additions wrap, `count` is
`wrapping_add(1)`); `%` on `i32` is Rust's truncating remainder
`Int.tmod` and `/` its truncating division `Int.tdiv`. -/
def InputData.update (d : InputData) (value : Int) : InputData :=
  let sum := wrapI32 (d.sum + value)
  let sum_squares := (d.sum_squares + (value * value).toNat) % 18446744073709551616
  let min := Min.min d.min value
  let max := Max.max d.max value
  let count := (d.count + 1) % 65536
  if count = 0 then
    { previous_value := d.previous_value
      sum := (wrapI32 (wrapI32 (sum + 1) - (1 - Int.tmod sum 2))).tdiv 2
      sum_squares := ((sum_squares + 2) % 18446744073709551616 - (1 - sum_squares / 2 % 2)) / 4
      min := min, max := max, count := 0x8000 }
  else
    { previous_value := d.previous_value
      sum := sum, sum_squares := sum_squares, min := min, max := max, count := count }

/-- The per-accumulator body of the `InputGet` / `InputGetFull`
read-and-reset handlers: compute the average
(`count == 0 ? previous_value : (sum / count) as i16`), and replace the
accumulator by the reset state carrying that average as
`previous_value`.  Returns the average together with the new state. -/
def InputData.readAndReset (d : InputData) : Int × InputData :=
  let avg := if d.count = 0 then d.previous_value else wrapI16 (d.sum.tdiv (d.count : Int))
  (avg, { InputData.new with previous_value := avg })

/-- `ThresholdData`: the per-input debounce state.  Timestamps are
microsecond ticks since boot (`u64`). -/
structure ThresholdData where
  last_above_threshold : Nat
  last_below_threshold : Nat
  above_count : Nat
  below_count : Nat
  last_above_threshold_debounced : Nat
  last_below_threshold_debounced : Nat
  deriving Repr, DecidableEq

/-- `ThresholdData::new`: all four timestamps equal to the given instant,
both counters zero. -/
def ThresholdData.new (now : Nat) : ThresholdData where
  last_above_threshold := now
  last_below_threshold := now
  above_count := 0
  below_count := 0
  last_above_threshold_debounced := now
  last_below_threshold_debounced := now

/-- `ThresholdData::update`: one debounce step for a calibrated sample
`value` at time `now` under threshold configuration `th`.  `now - ...` on
`fugit` instants requires the subtrahend not to be in the future; the
natural-number subtraction below agrees with it whenever the state's
timestamps are `≤ now`, which holds along every time-ordered trace. -/
def ThresholdData.update (s : ThresholdData) (value : Int) (now : Nat)
    (th : Threshold) : ThresholdData :=
  let above_threshold := th.threshold_high < value
  let below_threshold := value < th.threshold_low
  let s : ThresholdData :=
    if above_threshold then
      let la := if s.above_count = 0 then now else s.last_above_threshold
      let deb :=
        if th.debounce_count ≤ s.above_count ∧ th.debounce_time_us ≤ now - la then la
        else s.last_above_threshold_debounced
      { s with
        last_above_threshold := la
        last_above_threshold_debounced := deb
        above_count := Min.min (s.above_count + 1) 65535 }
    else
      { s with above_count := 0 }
  if below_threshold then
    let lb := if s.below_count = 0 then now else s.last_below_threshold
    let deb :=
      if th.debounce_count ≤ s.below_count ∧ th.debounce_time_us ≤ now - lb then lb
      else s.last_below_threshold_debounced
    { s with
      last_below_threshold := lb
      last_below_threshold_debounced := deb
      below_count := Min.min (s.below_count + 1) 65535 }
  else
    { s with below_count := 0 }

/-- Feed a list of `(timestamp, value)` samples through
`ThresholdData::update` under a fixed threshold configuration. -/
def ThresholdData.run (s : ThresholdData) (th : Threshold)
    (samples : List (Nat × Int)) : ThresholdData :=
  samples.foldl (fun s tv => s.update tv.2 tv.1 th) s

/-! ## Output handler (`src/pico_iox16_firmware/src/output.rs`) -/

/-- Rust `u16::clamp`. -/
def clampNat (x lo hi : Nat) : Nat :=
  Max.max lo (Min.min x hi)

/-- The `rounded_div` crate on `u32`: quotient rounded to nearest
(ties away from zero): `(n + d / 2) / d`. -/
def roundedDiv (n d : Nat) : Nat :=
  (n + d / 2) / d

/-- The frequency programmed by the `OutputSet` handler for a requested
frequency `f`: `f.clamp(10, 50_000)`. -/
def outputFrequency (f : Nat) : Nat :=
  clampNat f 10 50000

/-- The hardware duty value programmed by the `OutputSet` handler
(`handle_group`) for a requested duty `duty` (protocol scale, clamped to
`0..0x8000`) on a channel whose maximum duty is `maxDuty`:
`((duty.clamp(0, 0x8000) as u32 * 0x8000).rounded_div(maxDuty as u32))
as u16`. -/
def outputDuty (duty maxDuty : Nat) : Nat :=
  roundedDiv (clampNat duty 0 0x8000 * 0x8000) maxDuty % 65536

/-- Modelled from the spec: the rescaling §4.4 describes, "rescales each
to the hardware's actual `max_duty` with rounded division", i.e. the
clamped duty mapped from the protocol's `0..0x8000` scale onto
`0..maxDuty`. -/
def specOutputDuty (duty maxDuty : Nat) : Nat :=
  roundedDiv (clampNat duty 0 0x8000 * maxDuty) 0x8000

/-! ## Supporting lemmas -/

theorem neg_tmod_eq (a b : Int) : (-a).tmod b = -(a.tmod b) := by
  have h1 := Int.tdiv_add_tmod (-a) b
  have h2 := Int.tdiv_add_tmod a b
  rw [Int.neg_tdiv] at h1
  linarith

theorem tmod_bounds (a : Int) {b : Int} (hb : 0 < b) : -b < a.tmod b ∧ a.tmod b < b := by
  rcases le_or_lt 0 a with ha | ha
  · exact ⟨lt_of_lt_of_le (by linarith) (Int.tmod_nonneg b ha), Int.tmod_lt_of_pos a hb⟩
  · have hn : a.tmod b = -((-a).tmod b) := by rw [neg_tmod_eq]; ring
    have h1 : 0 ≤ (-a).tmod b := Int.tmod_nonneg b (by linarith)
    have h2 : (-a).tmod b < b := Int.tmod_lt_of_pos (-a) hb
    constructor <;> omega

theorem le_tdiv_of_mul_le {c lo s : Int} (hc : 0 < c) (h : c * lo ≤ s) : lo ≤ s.tdiv c := by
  have hqr := Int.tdiv_add_tmod s c
  have hr := (tmod_bounds s hc).2
  have hlt : c * lo < c * (s.tdiv c + 1) := by nlinarith
  have := lt_of_mul_lt_mul_left hlt (le_of_lt hc)
  omega

theorem tdiv_le_of_le_mul {c hi s : Int} (hc : 0 < c) (h : s ≤ c * hi) : s.tdiv c ≤ hi := by
  have hqr := Int.tdiv_add_tmod s c
  have hr := (tmod_bounds s hc).1
  have hlt : c * s.tdiv c < c * (hi + 1) := by nlinarith
  have := lt_of_mul_lt_mul_left hlt (le_of_lt hc)
  omega

theorem wrapI16_eq_of_bounds (z : Int) (h1 : -32768 ≤ z) (h2 : z ≤ 32767) :
    wrapI16 z = z := by
  unfold wrapI16
  omega

theorem wrapI32_eq_of_bounds (z : Int) (h1 : -2147483648 ≤ z) (h2 : z ≤ 2147483647) :
    wrapI32 z = z := by
  unfold wrapI32
  omega

theorem getElem_bang_replicate (i : Nat) (h : i < 4096) :
    (List.replicate 4096 (255 : Nat))[i]! = 255 := by
  rw [getElem!_pos (List.replicate 4096 (255 : Nat)) i (by rw [List.length_replicate]; exact h)]
  exact List.getElem_replicate _ _

theorem readU16_allones (off : Nat) (h : off + 1 < 4096) :
    readU16 (List.replicate 4096 255) off = 65535 := by
  unfold readU16
  rw [getElem_bang_replicate off (by omega), getElem_bang_replicate (off + 1) h]

theorem readU32_allones (off : Nat) (h : off + 3 < 4096) :
    readU32 (List.replicate 4096 255) off = 4294967295 := by
  unfold readU32
  rw [getElem_bang_replicate off (by omega), getElem_bang_replicate (off + 1) (by omega),
    getElem_bang_replicate (off + 2) (by omega), getElem_bang_replicate (off + 3) h]

theorem decodeCalibration_allones (off : Nat) (h : off + 9 < 4096) :
    decodeCalibration (List.replicate 4096 255) off = ⟨-1, -1, -1, -1, -1⟩ := by
  unfold decodeCalibration
  rw [readU16_allones off (by omega), readU16_allones (off + 2) (by omega),
    readU16_allones (off + 4) (by omega), readU16_allones (off + 6) (by omega),
    readU16_allones (off + 8) (by omega)]
  decide

theorem decodeThreshold_allones (off : Nat) (h : off + 9 < 4096) :
    decodeThreshold (List.replicate 4096 255) off = ⟨-1, -1, 4294967295, 65535⟩ := by
  unfold decodeThreshold
  rw [readU16_allones off (by omega), readU16_allones (off + 2) (by omega),
    readU32_allones (off + 4) (by omega), readU16_allones (off + 8) (by omega)]
  decide

/-! ## Claims -/

set_option maxHeartbeats 2000000 in
/-- `slave_next` reports exactly the hunter's processed count. -/
theorem slaveNext_processed (bs : List Nat) (a : Nat) :
    (slaveNext bs a).2 = (nextMessage bs).2 := by
  rcases hnm : nextMessage bs with ⟨mo, p⟩
  rcases mo with _ | ⟨hd, payload⟩
  · simp [slaveNext, hnm]
  · simp only [slaveNext, hnm]
    by_cases haddr : a ≠ hd.address
    · rw [if_pos haddr]
    · rw [if_neg haddr]
      rcases hcmd : Command.fromId hd.command with _ | c
      · rfl
      · cases c <;> first | rfl | (split_ifs <;> rfl)

set_option maxHeartbeats 2000000 in
/-- `master_next` reports exactly the hunter's processed count. -/
theorem masterNext_processed (bs : List Nat) :
    (masterNext bs).2 = (nextMessage bs).2 := by
  rcases hnm : nextMessage bs with ⟨mo, p⟩
  rcases mo with _ | ⟨hd, payload⟩
  · simp [masterNext, hnm]
  · simp only [masterNext, hnm]
    rcases hcmd : Command.fromId hd.command with _ | c
    · rfl
    · cases c <;> first | rfl | (split_ifs <;> rfl)

/-- C10: for every input buffer, the processed count reported by
`next_message` — and hence by `slave_next` and `master_next`, which pass
it through — never exceeds the buffer length, so the dispatcher's
compaction `copy_within(processed..buf_len, 0)` and `buf_len -= processed`
stay in bounds: dropping `processed` bytes from the front leaves exactly
`buf_len - processed` bytes. -/
theorem processed_le_buffer_length (bs : List Nat) (a : Nat) :
    (nextMessage bs).2 ≤ bs.length ∧
    (slaveNext bs a).2 ≤ bs.length ∧
    (masterNext bs).2 ≤ bs.length ∧
    (bs.drop (slaveNext bs a).2).length = bs.length - (slaveNext bs a).2 := by
  have h := nextMessageAux_processed_le bs.length bs
  refine ⟨h, ?_, ?_, ?_⟩
  · rw [slaveNext_processed]; exact h
  · rw [masterNext_processed]; exact h
  · rw [List.length_drop]

/-- C5: frame round-trip.  Serializing any address, command id and
well-sized payload (a multiple of 4 bytes, at most 1020) and feeding the
bytes to `next_message` recovers the same address, command and payload
bytes with `processed` equal to the full frame length `8 + 4L + 2`; and
for every typed command with its correctly sized payload, `slave_next`
with the matching address recovers the typed request (carrying the same
payload bytes wherever the request struct has data). -/
theorem frame_roundtrip :
    (∀ (a c L : Nat) (p : List Nat), p.length = 4 * L → L ≤ 255 →
        a < 65536 → c < 65536 →
      nextMessage (serializeFrame a c p) =
        (some (⟨0x4F, 0x4D, L, L ^^^ 0xFF, a, c⟩, p), p.length + 10)) ∧
    (∀ (a : Nat) (c : Command) (p : List Nat), p.length = c.reqSize → a < 65536 →
      slaveNext (serializeFrame a c.toNat p) a = (some (requestOf c p), p.length + 10)) :=
  ⟨fun a c L p hp hL ha hc => nextMessage_serializeFrame a c L p hp hL ha hc,
    fun a c p hsize ha => slaveNext_serializeFrame a c p hsize ha⟩

theorem frame_roundtrip_witness :
    nextMessage (serializeFrame 0x1234 4 [1, 2, 3, 4]) =
      (some (⟨0x4F, 0x4D, 1, 1 ^^^ 0xFF, 0x1234, 4⟩, [1, 2, 3, 4]), 14) ∧
    slaveNext (serializeFrame 0x1234 Command.check.toNat []) 0x1234 =
      (some (requestOf Command.check []), 10) :=
  ⟨frame_roundtrip.1 0x1234 4 1 [1, 2, 3, 4] (by decide) (by decide) (by decide)
      (by decide),
    frame_roundtrip.2 0x1234 Command.check [] (by decide) (by decide)⟩

/-- C6 (counterexample): the claim says a magic + length/inverted-length
match with fewer than `8 + 4L + 2` bytes available yields
`processed = 0`.  On the buffer `[0x00, 0x4F, 0x4D, 0x00, 0xFF]` the
hunter finds such a match (after one junk byte) with only four bytes from
the match onward, yet reports `processed = 1`, not 0: the junk skipped
before the match is counted. -/
theorem hunter_incomplete_processed_nonzero :
    nextMessage [0x00, 0x4F, 0x4D, 0x00, 0xFF] = (none, 1) ∧
    (nextMessage [0x00, 0x4F, 0x4D, 0x00, 0xFF]).2 ≠ 0 := by
  decide

/-- C6 (amended): when the magic + length/inverted-length match is at the
start of the buffer and fewer than `8 + 4L + 2` bytes are available, the
hunter returns no message with `processed = 0`, leaving the buffer intact
(in general `processed` counts the junk bytes skipped before the match);
on a CRC mismatch it skips the entire claimed frame length and continues
searching in the remainder; and the buffer
`[0x00, 0x4F, 0x4D, 0x00, 0xFF, 0x34, 0x12, 0x00, 0x00, crc_lo, crc_hi]`
with the correct trailing CRC (`crc16 = 50787`, so `crc_lo = 99`,
`crc_hi = 198`) yields exactly one valid Check request to address
`0x1234` with `processed = 11`. -/
theorem hunter_incomplete_skip_resync :
    (∀ (b3 : Nat) (rest : List Nat),
      (0x4F :: 0x4D :: (b3 ^^^ 0xFF) :: b3 :: rest).length <
        (b3 ^^^ 0xFF) * 4 + 10 →
      nextMessage (0x4F :: 0x4D :: (b3 ^^^ 0xFF) :: b3 :: rest) = (none, 0)) ∧
    (∀ (b2 b3 b4 b5 b6 b7 : Nat) (rest2 : List Nat),
      b2 = b3 ^^^ 0xFF →
      b2 * 4 + 2 ≤ rest2.length →
      crc16 (0x4F :: 0x4D :: b2 :: b3 :: b4 :: b5 :: b6 :: b7 ::
          rest2.take (b2 * 4)) ≠
        (rest2.drop (b2 * 4))[0]! + 256 * (rest2.drop (b2 * 4))[1]! →
      nextMessage (0x4F :: 0x4D :: b2 :: b3 :: b4 :: b5 :: b6 :: b7 :: rest2) =
        ((nextMessage (rest2.drop (b2 * 4 + 2))).1,
          (nextMessage (rest2.drop (b2 * 4 + 2))).2 + (b2 * 4 + 10))) ∧
    crc16 [0x4F, 0x4D, 0x00, 0xFF, 0x34, 0x12, 0x00, 0x00] = 50787 ∧
    50787 % 256 = 99 ∧ 50787 / 256 = 198 ∧
    slaveNext [0x00, 0x4F, 0x4D, 0x00, 0xFF, 0x34, 0x12, 0x00, 0x00, 99, 198]
        0x1234 = (some Request.check, 11) ∧
    nextMessage [0x00, 0x4F, 0x4D, 0x00, 0xFF, 0x34, 0x12, 0x00, 0x00, 99, 198] =
      (some (⟨0x4F, 0x4D, 0x00, 0xFF, 0x1234, 0x00⟩, []), 11) := by
  refine ⟨?_, ?_, by decide, by decide, by decide, by decide, by decide⟩
  · intro b3 rest hlen
    simp only [List.length_cons] at hlen
    rcases rest with _ | ⟨b4, _ | ⟨b5, _ | ⟨b6, _ | ⟨b7, rest2⟩⟩⟩⟩
    · rw [nextMessage, show ([0x4F, 0x4D, b3 ^^^ 0xFF, b3] : List Nat).length = 3 + 1
        from by simp, nextMessageAux_cons4_incomplete 3 _ _ _ _ _ (by simp),
        if_pos ⟨rfl, rfl, rfl⟩]
    · rw [nextMessage, show ([0x4F, 0x4D, b3 ^^^ 0xFF, b3, b4] : List Nat).length = 4 + 1
        from by simp, nextMessageAux_cons4_incomplete 4 _ _ _ _ _ (by simp),
        if_pos ⟨rfl, rfl, rfl⟩]
    · rw [nextMessage, show ([0x4F, 0x4D, b3 ^^^ 0xFF, b3, b4, b5] : List Nat).length = 5 + 1
        from by simp, nextMessageAux_cons4_incomplete 5 _ _ _ _ _ (by simp),
        if_pos ⟨rfl, rfl, rfl⟩]
    · rw [nextMessage,
        show ([0x4F, 0x4D, b3 ^^^ 0xFF, b3, b4, b5, b6] : List Nat).length = 6 + 1
        from by simp, nextMessageAux_cons4_incomplete 6 _ _ _ _ _ (by simp),
        if_pos ⟨rfl, rfl, rfl⟩]
    · simp only [List.length_cons] at hlen
      rw [nextMessage_cons8, if_pos ⟨rfl, rfl, rfl⟩, if_pos (by omega)]
  · intro b2 b3 b4 b5 b6 b7 rest2 hinv hrlen hcrc
    rw [nextMessage_cons8, if_pos ⟨rfl, rfl, hinv⟩, if_neg (by omega), if_neg hcrc]

theorem hunter_incomplete_skip_resync_witness :
    nextMessage (0x4F :: 0x4D :: (0xFF ^^^ 0xFF) :: 0xFF :: [0x34]) = (none, 0) ∧
    nextMessage (0x4F :: 0x4D :: 0x00 :: 0xFF :: 0x34 :: 0x12 :: 0x00 :: 0x00 ::
        [0x00, 0x00]) =
      ((nextMessage (([0x00, 0x00] : List Nat).drop (0x00 * 4 + 2))).1,
        (nextMessage (([0x00, 0x00] : List Nat).drop (0x00 * 4 + 2))).2 +
          (0x00 * 4 + 10)) :=
  ⟨hunter_incomplete_skip_resync.1 0xFF [0x34] (by decide),
    hunter_incomplete_skip_resync.2.1 0x00 0xFF 0x34 0x12 0x00 0x00 [0x00, 0x00]
      (by decide) (by decide) (by decide)⟩

/-- C1: the spec promises that an all-`0xFF` flash page decodes to address
`0xFFFF`, calibrations `(1, 1, 0, -32768, 32767)` and thresholds
`(32767, -32768, 0, 0)`, and the field doc comments in `nvm.rs` document
per-field XOR masks to that effect.  `Nvm::new` decodes the page with no
masking, so an all-ones page actually decodes to address `0xFFFF` (which
does match) but calibrations `(-1, -1, -1, -1, -1)` and thresholds
`(-1, -1, 0xFFFFFFFF, 0xFFFF)`, contradicting the documented defaults. -/
theorem nvm_allones_decode_not_default :
    decodeNonvolatileData (List.replicate 4096 0xFF) =
      { config := ⟨0xFFFF⟩
        calibrations := List.replicate 16 ⟨-1, -1, -1, -1, -1⟩
        thresholds := List.replicate 16 ⟨-1, -1, 4294967295, 65535⟩ } ∧
    decodeNonvolatileData (List.replicate 4096 0xFF) ≠ defaultNonvolatileData := by
  have hcal : (List.range 16).map
      (fun i => decodeCalibration (List.replicate 4096 255) (4 + 10 * i)) =
      List.replicate 16 ⟨-1, -1, -1, -1, -1⟩ := by
    rw [List.eq_replicate_iff]
    refine ⟨by rw [List.length_map, List.length_range], ?_⟩
    intro b hb
    rw [List.mem_map] at hb
    obtain ⟨i, hi, rfl⟩ := hb
    rw [List.mem_range] at hi
    exact decodeCalibration_allones _ (by omega)
  have hthr : (List.range 16).map
      (fun i => decodeThreshold (List.replicate 4096 255) (164 + 12 * i)) =
      List.replicate 16 ⟨-1, -1, 4294967295, 65535⟩ := by
    rw [List.eq_replicate_iff]
    refine ⟨by rw [List.length_map, List.length_range], ?_⟩
    intro b hb
    rw [List.mem_map] at hb
    obtain ⟨i, hi, rfl⟩ := hb
    rw [List.mem_range] at hi
    exact decodeThreshold_allones _ (by omega)
  have hmain : decodeNonvolatileData (List.replicate 4096 255) =
      { config := ⟨0xFFFF⟩
        calibrations := List.replicate 16 ⟨-1, -1, -1, -1, -1⟩
        thresholds := List.replicate 16 ⟨-1, -1, 4294967295, 65535⟩ } := by
    unfold decodeNonvolatileData
    rw [hcal, hthr, readU16_allones 0 (by omega)]
  exact ⟨hmain, by rw [hmain]; decide⟩

/-- C2: the spec says the `OutputSet` handler rescales each duty cycle
from the protocol's `0..0x8000` scale to the hardware's `max_duty` with
rounded division, i.e. writes `round(duty * max_duty / 0x8000)`; the code
instead computes `round(duty * 0x8000 / max_duty)` (and truncates the
quotient to `u16`).  The two differ whenever `max_duty ≠ 0x8000`: at
`duty = 0x8000` (100 %) with `max_duty = 1000` the code writes 25166
while the spec requires 1000.  (The frequency clamp to `[10, 50000]` Hz
itself is as documented.) -/
theorem outputSet_duty_rescale_inverted :
    outputFrequency 5 = 10 ∧ outputFrequency 60000 = 50000 ∧
    outputFrequency 1000 = 1000 ∧
    outputDuty 0x8000 1000 = 25166 ∧
    specOutputDuty 0x8000 1000 = 1000 ∧
    outputDuty 0x8000 1000 ≠ specOutputDuty 0x8000 1000 := by
  refine ⟨rfl, rfl, rfl, ?_, ?_, ?_⟩ <;> decide

/-- C3 (counterexample): the claim says that after a read-and-reset
handler completes every accumulator satisfies
`min ≤ previous_value ≤ max`.  The handlers reset each accumulator to
`InputData::new` (which has `min = 32767`, `max = -32768`) with
`previous_value` set to the just-returned average, so the claimed
inequality fails already for the reachable accumulator holding the single
sample 5: after the reset, `min = 32767 > 5 = previous_value`. -/
theorem inputReadReset_post_min_le_prev_fails :
    ¬ ((InputData.new.update 5).readAndReset.2.min ≤
        (InputData.new.update 5).readAndReset.2.previous_value ∧
      (InputData.new.update 5).readAndReset.2.previous_value ≤
        (InputData.new.update 5).readAndReset.2.max) := by
  decide

/-- C3 (amended): after a read-and-reset handler, the accumulator is the
fresh reset state (`min = 32767`, `max = -32768`, `count = 0`,
`sum = sum_squares = 0`) with `previous_value` equal to the just-returned
average; and whenever `count ≠ 0` at read time, the just-returned average
lies within the accumulator's pre-reset `[min, max]` — given the bounds
`count * min ≤ sum ≤ count * max` that every accumulator reachable by
sample updates satisfies. -/
theorem inputReadReset_avg_in_prior_range (d : InputData)
    (hmin : -32768 ≤ d.min) (hmax : d.max ≤ 32767)
    (hlo : d.count ≠ 0 → (d.count : Int) * d.min ≤ d.sum)
    (hhi : d.count ≠ 0 → d.sum ≤ (d.count : Int) * d.max) :
    (d.count ≠ 0 → d.min ≤ d.readAndReset.1 ∧ d.readAndReset.1 ≤ d.max) ∧
    d.readAndReset.2 = { InputData.new with previous_value := d.readAndReset.1 } := by
  refine ⟨?_, rfl⟩
  intro hc
  have hcpos : (0 : Int) < (d.count : Int) := by
    have : 0 < d.count := Nat.pos_of_ne_zero hc
    exact_mod_cast this
  have h1 : d.min ≤ d.sum.tdiv (d.count : Int) := le_tdiv_of_mul_le hcpos (hlo hc)
  have h2 : d.sum.tdiv (d.count : Int) ≤ d.max := tdiv_le_of_le_mul hcpos (hhi hc)
  have havg : d.readAndReset.1 = wrapI16 (d.sum.tdiv (d.count : Int)) := by
    simp only [InputData.readAndReset]
    rw [if_neg hc]
  rw [havg, wrapI16_eq_of_bounds _ (by omega) (by omega)]
  exact ⟨h1, h2⟩

theorem inputReadReset_avg_in_prior_range_witness :
    ((⟨0, 12, 74, 5, 7, 2⟩ : InputData).count ≠ 0 →
      (⟨0, 12, 74, 5, 7, 2⟩ : InputData).min ≤
        (⟨0, 12, 74, 5, 7, 2⟩ : InputData).readAndReset.1 ∧
      (⟨0, 12, 74, 5, 7, 2⟩ : InputData).readAndReset.1 ≤
        (⟨0, 12, 74, 5, 7, 2⟩ : InputData).max) ∧
    (⟨0, 12, 74, 5, 7, 2⟩ : InputData).readAndReset.2 =
      { InputData.new with previous_value := (⟨0, 12, 74, 5, 7, 2⟩ : InputData).readAndReset.1 } :=
  inputReadReset_avg_in_prior_range ⟨0, 12, 74, 5, 7, 2⟩ (by decide) (by decide)
    (fun _ => by decide) (fun _ => by decide)

/-- C7: when the 16-bit sample count wraps to zero (i.e. the previous
count was `0xFFFF`), `InputData::update` sets `count` to `0x8000` and
replaces the accumulated sum `s = sum + value` by `s/2` and the
accumulated sum of squares `ss = sum_squares + value²` by `ss/4`, each up
to the small parity-dependent rounding the code applies: the new sum
doubles back to `s + (s tmod 2)` (so `|2·sum − s| ≤ 1`), and the new sum
of squares satisfies `|4·sum_squares − ss| ≤ 2`; `min` and `max` keep the
running extrema.  Range hypotheses keep the `i32`/`u64` wrapping
arithmetic away from overflow, as in any run of the firmware. -/
theorem inputUpdate_count_wrap_rescale (d : InputData) (v : Int)
    (hcount : d.count = 65535)
    (hs1 : -2147483648 ≤ d.sum + v) (hs2 : d.sum + v ≤ 2147483646)
    (hss : d.sum_squares + (v * v).toNat ≤ 18446744073709551613) :
    (d.update v).count = 0x8000 ∧
    2 * (d.update v).sum = (d.sum + v) + Int.tmod (d.sum + v) 2 ∧
    (d.sum + v) - 1 ≤ 2 * (d.update v).sum ∧
    2 * (d.update v).sum ≤ (d.sum + v) + 1 ∧
    (d.update v).min = Min.min d.min v ∧
    (d.update v).max = Max.max d.max v ∧
    d.sum_squares + (v * v).toNat ≤ 4 * (d.update v).sum_squares + 2 ∧
    4 * (d.update v).sum_squares ≤ d.sum_squares + (v * v).toNat + 2 := by
  have hwrap : (d.count + 1) % 65536 = 0 := by rw [hcount]
  have hcond : ((d.count + 1) % 65536 = 0) = True := by simp [hwrap]
  set s : Int := d.sum + v with hsdef
  set ss : Nat := d.sum_squares + (v * v).toNat with hssdef
  have htm := tmod_bounds s (show (0 : Int) < 2 by norm_num)
  have heq := Int.tdiv_add_tmod s 2
  have hw0 : wrapI32 s = s := wrapI32_eq_of_bounds s hs1 (by omega)
  have hw1 : wrapI32 (s + 1) = s + 1 := wrapI32_eq_of_bounds _ (by omega) (by omega)
  have hstm : s + Int.tmod s 2 = 2 * (s.tdiv 2 + Int.tmod s 2) := by omega
  have hw2 : wrapI32 (s + 1 - (1 - Int.tmod s 2)) = s + Int.tmod s 2 := by
    rw [show s + 1 - (1 - Int.tmod s 2) = s + Int.tmod s 2 by ring]
    exact wrapI32_eq_of_bounds _ (by omega) (by omega)
  have hssm : ss % 18446744073709551616 = ss := Nat.mod_eq_of_lt (by omega)
  have hssm2 : (ss + 2) % 18446744073709551616 = ss + 2 := Nat.mod_eq_of_lt (by omega)
  have hupd : d.update v =
      { previous_value := d.previous_value
        sum := (s + Int.tmod s 2).tdiv 2
        sum_squares := (ss + 2 - (1 - ss / 2 % 2)) / 4
        min := Min.min d.min v, max := Max.max d.max v, count := 0x8000 } := by
    simp only [InputData.update, hcond, if_true, hw0, hssm]
    rw [hw1, hw2, hssm2]
  rw [hupd]
  have htdiv : (s + Int.tmod s 2).tdiv 2 = s.tdiv 2 + Int.tmod s 2 := by
    rw [hstm]
    exact Int.mul_tdiv_cancel_left _ (by norm_num)
  refine ⟨rfl, ?_, ?_, ?_, rfl, rfl, ?_, ?_⟩ <;> simp only [htdiv] <;> omega

theorem inputUpdate_count_wrap_rescale_witness :
    (⟨0, 5, 100, 0, 7, 65535⟩ : InputData).count = 65535 ∧
    ((⟨0, 5, 100, 0, 7, 65535⟩ : InputData).update 2).count = 0x8000 ∧
    ((⟨0, 5, 100, 0, 7, 65535⟩ : InputData).update 2).sum = 4 ∧
    ((⟨0, 5, 100, 0, 7, 65535⟩ : InputData).update 2).sum_squares = 26 :=
  ⟨rfl,
    (inputUpdate_count_wrap_rescale ⟨0, 5, 100, 0, 7, 65535⟩ 2 rfl (by decide) (by decide)
      (by decide)).1,
    by decide, by decide⟩

/-- Field-wise characterization of one `ThresholdData::update` step: the
sequential record updates of the source are equivalent to this
conditional description (shared by the step/trace theorems below). -/
theorem thresholdUpdate_eq (s : ThresholdData) (v : Int) (t : Nat) (th : Threshold) :
    s.update v t th =
      { last_above_threshold :=
          if th.threshold_high < v then
            (if s.above_count = 0 then t else s.last_above_threshold)
          else s.last_above_threshold
        last_above_threshold_debounced :=
          if th.threshold_high < v then
            (let la := if s.above_count = 0 then t else s.last_above_threshold
             if th.debounce_count ≤ s.above_count ∧ th.debounce_time_us ≤ t - la then la
             else s.last_above_threshold_debounced)
          else s.last_above_threshold_debounced
        above_count :=
          if th.threshold_high < v then Min.min (s.above_count + 1) 65535 else 0
        last_below_threshold :=
          if v < th.threshold_low then
            (if s.below_count = 0 then t else s.last_below_threshold)
          else s.last_below_threshold
        last_below_threshold_debounced :=
          if v < th.threshold_low then
            (let lb := if s.below_count = 0 then t else s.last_below_threshold
             if th.debounce_count ≤ s.below_count ∧ th.debounce_time_us ≤ t - lb then lb
             else s.last_below_threshold_debounced)
          else s.last_below_threshold_debounced
        below_count :=
          if v < th.threshold_low then Min.min (s.below_count + 1) 65535 else 0 } := by
  simp only [ThresholdData.update]
  split_ifs <;> rfl

/-- C4: per sample, `ThresholdData::update` behaves as the claim
describes — on `v > threshold_high` it records `last_above_threshold := t`
iff the previous `above_count` was 0, sets
`last_above_threshold_debounced` to the (updated) `last_above_threshold`
iff `above_count ≥ debounce_count` and
`t − last_above_threshold ≥ debounce_time_us`, and saturating-increments
`above_count`; on `v ≤ threshold_high` it resets `above_count` to 0
(symmetrically for `v < threshold_low` with the below fields) — and on
the spec's debounce scenario (`threshold_high = 100`,
`debounce_count = 3`, `debounce_time_us = 500`, samples
`(0,50), (100,150), (200,150), (300,150), (400,150), (700,150)` from the
start state at time 0), `last_above_threshold` becomes 100 at the first
crossing and is still 100 at the end, while
`last_above_threshold_debounced` is still the initial 0 after the `t=400`
sample and becomes 100 on the `t=700` sample. -/
theorem thresholdUpdate_step_and_scenario :
    (∀ (s : ThresholdData) (v : Int) (t : Nat) (th : Threshold),
      s.update v t th =
        { last_above_threshold :=
            if th.threshold_high < v then
              (if s.above_count = 0 then t else s.last_above_threshold)
            else s.last_above_threshold
          last_above_threshold_debounced :=
            if th.threshold_high < v then
              (let la := if s.above_count = 0 then t else s.last_above_threshold
               if th.debounce_count ≤ s.above_count ∧ th.debounce_time_us ≤ t - la then la
               else s.last_above_threshold_debounced)
            else s.last_above_threshold_debounced
          above_count :=
            if th.threshold_high < v then Min.min (s.above_count + 1) 65535 else 0
          last_below_threshold :=
            if v < th.threshold_low then
              (if s.below_count = 0 then t else s.last_below_threshold)
            else s.last_below_threshold
          last_below_threshold_debounced :=
            if v < th.threshold_low then
              (let lb := if s.below_count = 0 then t else s.last_below_threshold
               if th.debounce_count ≤ s.below_count ∧ th.debounce_time_us ≤ t - lb then lb
               else s.last_below_threshold_debounced)
            else s.last_below_threshold_debounced
          below_count :=
            if v < th.threshold_low then Min.min (s.below_count + 1) 65535 else 0 }) ∧
    ((ThresholdData.new 0).run ⟨100, -32768, 500, 3⟩
        [(0, 50)]).last_above_threshold = 0 ∧
    ((ThresholdData.new 0).run ⟨100, -32768, 500, 3⟩
        [(0, 50), (100, 150)]).last_above_threshold = 100 ∧
    ((ThresholdData.new 0).run ⟨100, -32768, 500, 3⟩
        [(0, 50), (100, 150), (200, 150), (300, 150), (400, 150)]
          ).last_above_threshold_debounced = 0 ∧
    ((ThresholdData.new 0).run ⟨100, -32768, 500, 3⟩
        [(0, 50), (100, 150), (200, 150), (300, 150), (400, 150), (700, 150)]
          ).last_above_threshold_debounced = 100 ∧
    ((ThresholdData.new 0).run ⟨100, -32768, 500, 3⟩
        [(0, 50), (100, 150), (200, 150), (300, 150), (400, 150), (700, 150)]
          ).last_above_threshold = 100 := by
  exact ⟨thresholdUpdate_eq, by decide, by decide, by decide, by decide, by decide⟩

/-- A trace of `(timestamp, value)` samples whose timestamps are
non-decreasing and start no earlier than `t0`. -/
def timeOrdered (t0 : Nat) : List (Nat × Int) → Prop
  | [] => True
  | (t, _) :: rest => t0 ≤ t ∧ timeOrdered t rest

/-- One step of the C8 temporal argument: if the state's raw crossing
timestamps are not in the future of `t0` and each debounced timestamp is
at most its run's raw crossing timestamp, then an update at a time
`t ≥ t0` preserves all of that and can only move the debounced
timestamps forward. -/
theorem thresholdUpdate_timeInv_step (s : ThresholdData) (v : Int) (t t0 : Nat)
    (th : Threshold)
    (h1 : s.last_above_threshold ≤ t0) (h2 : s.last_below_threshold ≤ t0)
    (h3 : s.last_above_threshold_debounced ≤ s.last_above_threshold)
    (h4 : s.last_below_threshold_debounced ≤ s.last_below_threshold)
    (ht : t0 ≤ t) :
    (s.update v t th).last_above_threshold ≤ t ∧
    (s.update v t th).last_below_threshold ≤ t ∧
    (s.update v t th).last_above_threshold_debounced ≤
      (s.update v t th).last_above_threshold ∧
    (s.update v t th).last_below_threshold_debounced ≤
      (s.update v t th).last_below_threshold ∧
    s.last_above_threshold_debounced ≤ (s.update v t th).last_above_threshold_debounced ∧
    s.last_below_threshold_debounced ≤ (s.update v t th).last_below_threshold_debounced := by
  rw [thresholdUpdate_eq]
  simp only
  split_ifs <;> refine ⟨?_, ?_, ?_, ?_, ?_, ?_⟩ <;> omega

/-- C8: along any trace of samples with non-decreasing timestamps, the
debounced crossing timestamps of `ThresholdData` are non-decreasing, and
each stays bounded by the raw first-crossing timestamp of the current
run (`last_above_threshold` / `last_below_threshold`) — the debounced
timestamp is a copy of the run's raw crossing instant, never anything
later.  The start-state hypotheses hold for `ThresholdData::new t0`
(where all four timestamps equal `t0`) and are preserved along the
trace. -/
theorem thresholdDebounced_monotone (th : Threshold) :
    ∀ (samples : List (Nat × Int)) (s : ThresholdData) (t0 : Nat),
      s.last_above_threshold ≤ t0 → s.last_below_threshold ≤ t0 →
      s.last_above_threshold_debounced ≤ s.last_above_threshold →
      s.last_below_threshold_debounced ≤ s.last_below_threshold →
      timeOrdered t0 samples →
      s.last_above_threshold_debounced ≤
        (s.run th samples).last_above_threshold_debounced ∧
      s.last_below_threshold_debounced ≤
        (s.run th samples).last_below_threshold_debounced ∧
      (s.run th samples).last_above_threshold_debounced ≤
        (s.run th samples).last_above_threshold ∧
      (s.run th samples).last_below_threshold_debounced ≤
        (s.run th samples).last_below_threshold := by
  intro samples
  induction samples with
  | nil =>
    intro s t0 h1 h2 h3 h4 _
    exact ⟨le_refl _, le_refl _, h3, h4⟩
  | cons tv rest ih =>
    intro s t0 h1 h2 h3 h4 hord
    obtain ⟨t, v⟩ := tv
    obtain ⟨ht0, hord'⟩ := hord
    have hstep := thresholdUpdate_timeInv_step s v t t0 th h1 h2 h3 h4 ht0
    have hrun : s.run th ((t, v) :: rest) = (s.update v t th).run th rest := rfl
    rw [hrun]
    have := ih (s.update v t th) t hstep.1 hstep.2.1 hstep.2.2.1 hstep.2.2.2.1 hord'
    refine ⟨le_trans hstep.2.2.2.2.1 this.1, le_trans hstep.2.2.2.2.2 this.2.1,
      this.2.2.1, this.2.2.2⟩

theorem thresholdDebounced_monotone_witness :
    (ThresholdData.new 0).last_above_threshold ≤ 0 ∧
    timeOrdered 0 [(5, 200), (7, 200)] ∧
    ((ThresholdData.new 0).last_above_threshold_debounced ≤
        ((ThresholdData.new 0).run ⟨100, -32768, 0, 0⟩
          [(5, 200), (7, 200)]).last_above_threshold_debounced ∧
      (ThresholdData.new 0).last_below_threshold_debounced ≤
        ((ThresholdData.new 0).run ⟨100, -32768, 0, 0⟩
          [(5, 200), (7, 200)]).last_below_threshold_debounced ∧
      ((ThresholdData.new 0).run ⟨100, -32768, 0, 0⟩
          [(5, 200), (7, 200)]).last_above_threshold_debounced ≤
        ((ThresholdData.new 0).run ⟨100, -32768, 0, 0⟩
          [(5, 200), (7, 200)]).last_above_threshold ∧
      ((ThresholdData.new 0).run ⟨100, -32768, 0, 0⟩
          [(5, 200), (7, 200)]).last_below_threshold_debounced ≤
        ((ThresholdData.new 0).run ⟨100, -32768, 0, 0⟩
          [(5, 200), (7, 200)]).last_below_threshold) :=
  ⟨by decide, by simp [timeOrdered],
    thresholdDebounced_monotone ⟨100, -32768, 0, 0⟩ [(5, 200), (7, 200)]
      (ThresholdData.new 0) 0 (by decide) (by decide) (by decide) (by decide)
      (by simp [timeOrdered])⟩

/-- C9: `Nvm::set` stores the new data in the in-memory cache before the
flash write is attempted, so `get` returns the new data already after the
cache phase — and also after the full call, whether the flash write
succeeded or failed — and the flash write's error, if any, is exactly the
error returned to the calling handler. -/
theorem nvmSet_cache_first (st : NvmState) (data : NonvolatileData)
    (r : Except ε Unit) :
    nvmGet (nvmSetCachePhase st data) = data ∧
    nvmGet (nvmSet st data r).1 = data ∧
    (nvmSet st data r).2 = r := by
  refine ⟨rfl, ?_, ?_⟩ <;>
    cases r <;>
      simp [nvmSet, nvmSetCachePhase, nvmSetFlashPhase, nvmGet]

end PicoIox16
